import Mathlib

/-!
Verification of the LFR community-evaluation core: a shallow embedding of
the community file reader, the ground-truth index builder, and the metric
engine, together with theorems about their behaviour.

A text file is modelled as its list of characters; reading it yields the
list of its lines (each keeping its terminating newline, as the source's
line iteration does).  Fallible operations (tuple unpacking of a split,
integer conversion, dictionary lookup, division) return Option, with none
standing for the exception the source would raise.
-/

/-- Characters removed by the strip operation (the whitespace characters). -/
def isPyWS (c : Char) : Bool :=
  c = ' ' || c = '\t' || c = '\n' || c = '\r' || c = '\x0b' || c = '\x0c'

/-- A line of a text file, as a list of characters. -/
abbrev Line := List Char

/-- Removes the maximal whitespace suffix of a list of characters. -/
def dropTrailingWS : Line → Line
  | [] => []
  | c :: rest =>
    if dropTrailingWS rest = [] ∧ isPyWS c then [] else c :: dropTrailingWS rest

/-- Strip: removes leading and trailing whitespace from a line. -/
def pstrip (l : Line) : Line := dropTrailingWS (l.dropWhile isPyWS)

/-- Whether the two-character marker dash-one occurs anywhere in the line
    (the membership test of the sentinel marker in a line). -/
def containsDashOne : Line → Bool
  | [] => false
  | c :: rest => (decide (c = '-') && decide (rest.head? = some '1')) || containsDashOne rest

/-- Splits a line on a delimiter character, keeping empty fields. -/
def splitOnChar (sep : Char) : Line → List Line
  | [] => [[]]
  | c :: rest =>
    match splitOnChar sep rest with
    | [] => [[c]]
    | h :: t => if c = sep then [] :: h :: t else (c :: h) :: t

/-- The two halves of a line that splits into exactly two fields on the
    delimiter; none models the unpacking failure on any other field count. -/
def splitTwo (sep : Char) (l : Line) : Option (Line × Line) :=
  match splitOnChar sep l with
  | [a, b] => some (a, b)
  | _ => none

/-- Value of a decimal digit character, none for a non-digit. -/
def digitVal (c : Char) : Option ℕ :=
  if '0' ≤ c ∧ c ≤ '9' then some (c.toNat - '0'.toNat) else none

/-- Accumulates decimal digits left to right; fails on a non-digit. -/
def parseDigits : Line → ℕ → Option ℕ
  | [], acc => some acc
  | c :: rest, acc =>
    match digitVal c with
    | some d => parseDigits rest (10 * acc + d)
    | none => none

/-- Integer conversion of a string: optional sign then at least one digit,
    surrounding whitespace allowed; none models the conversion error. -/
def parseInt (l : Line) : Option ℤ :=
  match pstrip l with
  | [] => none
  | '-' :: rest => if rest = [] then none else (parseDigits rest 0).map (fun n => -(n : ℤ))
  | '+' :: rest => if rest = [] then none else (parseDigits rest 0).map (fun n => (n : ℤ))
  | s => (parseDigits s 0).map (fun n => (n : ℤ))

/-- Splits file contents into lines, each keeping its terminating newline. -/
def readlinesAux : List Char → Line → List Line
  | [], acc => if acc = [] then [] else [acc]
  | c :: rest, acc =>
    if c = '\n' then (acc ++ ['\n']) :: readlinesAux rest []
    else readlinesAux rest (acc ++ [c])

/-- The list of lines of a file's contents. -/
def readlines (contents : List Char) : List Line := readlinesAux contents []

/-- First-match lookup in an association list (a dictionary read,
    none models the key error). -/
def dlookup {α : Type} (k : ℤ) : List (ℤ × α) → Option α
  | [] => none
  | p :: rest => if p.1 = k then some p.2 else dlookup k rest

/-- Dictionary write: replaces the entry for the key, or appends a new one. -/
def dupdate {α : Type} (k : ℤ) (v : α) : List (ℤ × α) → List (ℤ × α)
  | [] => [(k, v)]
  | p :: rest => if p.1 = k then (k, v) :: rest else p :: dupdate k v rest

/-- Splits a stripped line into two delimiter-separated fields and converts
    both to integers, as the two-variable unpacking followed by the two
    integer conversions does. -/
def parsePairInt (sep : Char) (i : Line) : Option (ℤ × ℤ) :=
  match splitTwo sep (pstrip i) with
  | none => none
  | some p =>
    match parseInt p.1, parseInt p.2 with
    | some a, some b => some (a, b)
    | _, _ => none

/-- Loop of graph_size_from_file: a stripped line that does not contain the
    sentinel marker and is non-blank contributes its two (string) endpoints
    to the node set and one to the edge count; otherwise reading stops. -/
def graphSizeLoop (split : Char) : List Line → Finset Line → ℕ →
    Option (Finset Line × ℕ)
  | [], nodes, edges => some (nodes, edges)
  | i :: rest, nodes, edges =>
    if containsDashOne (pstrip i) = false ∧ pstrip i ≠ [] then
      match splitTwo split (pstrip i) with
      | some p => graphSizeLoop split rest (insert p.2 (insert p.1 nodes)) (edges + 1)
      | none => none
    else some (nodes, edges)

/-- Size mode of the community file reader: distinct node count and edge
    count of the file. -/
def graph_size_from_file (lines : List Line) (split : Char := ' ') :
    Option (ℕ × ℕ) :=
  (graphSizeLoop split lines ∅ 0).map (fun p => (p.1.card, p.2))

/-- Tab-separated node and community of one ground-truth line. -/
def parseGTLine (i : Line) : Option (ℤ × ℤ) := parsePairInt '\t' i

/-- One ground-truth line's effect on the two dictionaries: the node is
    (re)assigned its community, and the node is added to that community's
    set (created as a singleton on first sight). -/
def gtStep (st : List (ℤ × ℤ) × List (ℤ × Finset ℤ)) (p : ℤ × ℤ) :
    List (ℤ × ℤ) × List (ℤ × Finset ℤ) :=
  (dupdate p.1 p.2 st.1,
    match dlookup p.2 st.2 with
    | some s => dupdate p.2 (insert p.1 s) st.2
    | none => dupdate p.2 ({p.1} : Finset ℤ) st.2)

/-- Loop of true_community_helper: processes a raw line when it is non-empty
    (the truthiness test is on the raw line, not the stripped one), else
    stops with the dictionaries built so far. -/
def tchLoop : List Line → List (ℤ × ℤ) × List (ℤ × Finset ℤ) →
    Option (List (ℤ × ℤ) × List (ℤ × Finset ℤ))
  | [], st => some st
  | i :: rest, st =>
    if i ≠ [] then
      match parseGTLine i with
      | some p => tchLoop rest (gtStep st p)
      | none => none
    else some st

/-- Builds the node-to-community and community-to-nodes dictionaries from a
    ground-truth file's lines. -/
def true_community_helper (lines : List Line) :
    Option (List (ℤ × ℤ) × List (ℤ × Finset ℤ)) :=
  tchLoop lines ([], [])

/-- Looks up the query node's community id, then that id's node set; either
    missing key is a lookup failure. -/
def get_true_community (node_to_com : List (ℤ × ℤ))
    (com_to_nodes : List (ℤ × Finset ℤ)) (q_node : ℤ) : Option (Finset ℤ) :=
  (dlookup q_node node_to_com).bind (fun com => dlookup com com_to_nodes)

/-- Division as the source performs it: fails on a zero denominator. -/
def pydiv (a b : ℚ) : Option ℚ := if b = 0 then none else some (a / b)

/-- Symmetric difference of two node sets. -/
def symmDiffF (A B : Finset ℤ) : Finset ℤ := (A \ B) ∪ (B \ A)

/-- Membership mode of the community file reader (the reading loop of
    LFR_error_stats): a raw line without the sentinel marker contributes
    both parsed endpoints to the proposed community; a sentinel stops it. -/
def readPropCom : List Line → Finset ℤ → Option (Finset ℤ)
  | [], acc => some acc
  | i :: rest, acc =>
    if containsDashOne i = false then
      match parsePairInt ' ' i with
      | some p => readPropCom rest (insert p.2 (insert p.1 acc))
      | none => none
    else some acc

/-- Metric engine: reads the proposed community, forms the symmetric
    difference and the confusion sets against the universe of size LFR,
    returns zeros for an empty proposed set, and otherwise computes
    precision, recall and F1 with unguarded divisions. -/
def LFR_error_stats (lines : List Line) (true_com : Finset ℤ)
    (LFR : ℕ := 10000) : Option (Finset ℤ × ℚ × ℚ × ℚ × ℕ) :=
  match readPropCom lines ∅ with
  | none => none
  | some prop_com =>
    let sym_diff := symmDiffF true_com prop_com
    let full_net : Finset ℤ := Finset.Icc 1 (LFR : ℤ)
    let true_positive := true_com ∩ prop_com
    let true_negative := (full_net \ true_com) \ prop_com
    let false_negative := true_com \ prop_com
    let false_positive := prop_com \ true_com
    if prop_com.card = 0 then
      some (sym_diff, 0, 0, 0, 0)
    else
      (pydiv (true_positive.card : ℚ)
          ((true_positive.card : ℚ) + (false_positive.card : ℚ))).bind (fun per =>
        (pydiv (true_positive.card : ℚ)
            ((true_positive.card : ℚ) + (false_negative.card : ℚ))).bind (fun rec =>
          (pydiv (2 * per * rec) (per + rec)).map (fun f1 =>
            (sym_diff, per, rec, f1, prop_com.card))))

/-- The pairs parsed from the ground-truth lines, in order, under the same
    success condition as the helper's loop. -/
def parseLines : List Line → Option (List (ℤ × ℤ))
  | [] => some []
  | i :: rest =>
    if i ≠ [] then
      match parseGTLine i with
      | some p => (parseLines rest).map (fun ps => p :: ps)
      | none => none
    else some []

/-- Two parsed ground-truth lines are compatible when they do not assign
    the same node two different communities. -/
def gtCompatible : Option (ℤ × ℤ) → Option (ℤ × ℤ) → Bool
  | some p, some q => decide (p.1 = q.1 → p.2 = q.2)
  | _, _ => true

/-- The set of nodes whose node-to-community entry is a given community. -/
def nodesWithCom (node_to_com : List (ℤ × ℤ)) (c : ℤ) : Finset ℤ :=
  (node_to_com.map Prod.fst).toFinset.filter (fun a => dlookup a node_to_com = some c)

/-- Bool-level test that an optional node set is a given set; used to
    evaluate concrete runs of the readers by kernel reduction. -/
def optSetIs (o : Option (Finset ℤ)) (x : Finset ℤ) : Bool :=
  match o with
  | none => false
  | some y => decide (y = x)

/-- Bool-level test that an optional ground-truth index is a given pair of
    dictionaries. -/
def optGTIs (o : Option (List (ℤ × ℤ) × List (ℤ × Finset ℤ)))
    (x : List (ℤ × ℤ)) (y : List (ℤ × Finset ℤ)) : Bool :=
  match o with
  | none => false
  | some t => decide (t.1 = x) && decide (t.2 = y)

theorem optSetIs_sound {o : Option (Finset ℤ)} {x : Finset ℤ}
    (h : optSetIs o x = true) : o = some x := by
  cases o with
  | none => simp [optSetIs] at h
  | some y =>
    simp only [optSetIs, decide_eq_true_eq] at h
    rw [h]

theorem optGTIs_sound {o : Option (List (ℤ × ℤ) × List (ℤ × Finset ℤ))}
    {x : List (ℤ × ℤ)} {y : List (ℤ × Finset ℤ)}
    (h : optGTIs o x y = true) : o = some (x, y) := by
  cases o with
  | none => simp [optGTIs] at h
  | some t =>
    simp only [optGTIs, Bool.and_eq_true, decide_eq_true_eq] at h
    rw [← h.1, ← h.2]

theorem dlookup_dupdate {α : Type} (k a : ℤ) (v : α) :
    ∀ l : List (ℤ × α), dlookup a (dupdate k v l) = if k = a then some v else dlookup a l
  | [] => by
    by_cases hk : k = a <;> simp [dlookup, dupdate, hk]
  | p :: rest => by
    by_cases hp : p.1 = k
    · by_cases hk : k = a <;> simp [dlookup, dupdate, hp, hk]
    · by_cases ha : p.1 = a
      · have hk : ¬ k = a := fun e => hp (e ▸ ha)
        have hk2 : ¬ a = k := fun e => hk e.symm
        simp [dlookup, dupdate, hp, ha, hk, hk2]
      · simp [dlookup, dupdate, hp, ha, dlookup_dupdate k a v rest]

theorem dlookup_mem {α : Type} (a : ℤ) (v : α) :
    ∀ l : List (ℤ × α), dlookup a l = some v → (a, v) ∈ l
  | [] => by simp [dlookup]
  | p :: rest => by
    intro hl
    by_cases hp : p.1 = a
    · simp only [dlookup, hp, if_pos, Option.some_inj] at hl
      have hpe : p = (a, v) := by
        obtain ⟨p1, p2⟩ := p
        simp only at hp hl
        rw [hp, hl]
      exact List.mem_cons.mpr (Or.inl hpe.symm)
    · simp only [dlookup, hp, if_neg, not_false_iff] at hl
      exact List.mem_cons_of_mem _ (dlookup_mem a v rest hl)

theorem mem_dlookup {α : Type} (a : ℤ) (v : α) :
    ∀ l : List (ℤ × α), (a, v) ∈ l → ∃ w, dlookup a l = some w
  | [] => by simp
  | p :: rest => by
    intro hm
    by_cases hp : p.1 = a
    · exact ⟨p.2, by simp [dlookup, hp]⟩
    · rcases List.mem_cons.mp hm with he | ht
      · exact absurd (congrArg Prod.fst he.symm) hp
      · rcases mem_dlookup a v rest ht with ⟨w, hw⟩
        exact ⟨w, by simp [dlookup, hp, hw]⟩

theorem containsDashOne_cons (c : Char) (rest : Line) :
    containsDashOne (c :: rest) =
      ((decide (c = '-') && decide (rest.head? = some '1')) || containsDashOne rest) := rfl

theorem containsDashOne_dropWhile :
    ∀ l : Line, containsDashOne l = true → containsDashOne (l.dropWhile isPyWS) = true
  | [] => by simp [containsDashOne]
  | c :: rest => by
    intro h
    by_cases hw : isPyWS c
    · have hc : ¬ c = '-' := by
        intro he
        rw [he] at hw
        simp [isPyWS] at hw
      rw [List.dropWhile_cons_of_pos (by simpa using hw)]
      rw [containsDashOne_cons, Bool.or_eq_true] at h
      rcases h with hb | ht
      · rw [Bool.and_eq_true] at hb
        exact absurd (of_decide_eq_true hb.1) hc
      · exact containsDashOne_dropWhile rest ht
    · rw [List.dropWhile_cons_of_neg (by simpa using hw)]
      exact h

theorem dropTrailingWS_cons (c : Char) (l : Line) :
    dropTrailingWS (c :: l) =
      if dropTrailingWS l = [] ∧ isPyWS c = true then [] else c :: dropTrailingWS l := rfl

theorem containsDashOne_dropTrailing :
    ∀ l : Line, containsDashOne l = true → containsDashOne (dropTrailingWS l) = true
  | [] => by simp [containsDashOne]
  | c :: rest => by
    intro h
    rw [containsDashOne_cons, Bool.or_eq_true] at h
    rcases h with hb | ht
    · rw [Bool.and_eq_true] at hb
      have hc : c = '-' := of_decide_eq_true hb.1
      have hr : rest.head? = some '1' := of_decide_eq_true hb.2
      rcases rest with _ | ⟨r0, rest'⟩
      · simp at hr
      · have hr0 : r0 = '1' := by simpa using hr
        have hun : dropTrailingWS (r0 :: rest') = r0 :: dropTrailingWS rest' := by
          have hnr : ¬ (dropTrailingWS rest' = [] ∧ isPyWS r0 = true) := by
            intro hcon
            rw [hr0] at hcon
            simpa [isPyWS] using hcon.2
          rw [dropTrailingWS_cons, if_neg hnr]
        have hnc : ¬ (dropTrailingWS (r0 :: rest') = [] ∧ isPyWS c = true) := by
          intro hcon
          rw [hun] at hcon
          exact List.cons_ne_nil _ _ hcon.1
        rw [dropTrailingWS_cons, if_neg hnc, containsDashOne_cons, Bool.or_eq_true]
        left
        rw [Bool.and_eq_true]
        refine ⟨decide_eq_true hc, ?_⟩
        rw [hun, hr0]
        simp
    · have hrec := containsDashOne_dropTrailing rest ht
      have hne : dropTrailingWS rest ≠ [] := by
        intro he
        rw [he] at hrec
        simp [containsDashOne] at hrec
      rw [dropTrailingWS_cons, if_neg (fun hcon => hne hcon.1),
        containsDashOne_cons, Bool.or_eq_true]
      right
      exact hrec

theorem containsDashOne_pstrip (l : Line) (h : containsDashOne l = true) :
    containsDashOne (pstrip l) = true :=
  containsDashOne_dropTrailing _ (containsDashOne_dropWhile l h)

theorem readPropCom_stop (s : Line) (hs : containsDashOne s = true) :
    ∀ (l rest : List Line) (acc : Finset ℤ),
      readPropCom (l ++ s :: rest) acc = readPropCom (l ++ [s]) acc
  | [], rest, acc => by simp [readPropCom, hs]
  | i :: l, rest, acc => by
    simp only [List.cons_append, readPropCom]
    by_cases hi : containsDashOne i = false
    · simp only [hi, if_pos]
      cases parsePairInt ' ' i with
      | none => rfl
      | some p => exact readPropCom_stop s hs l rest _
    · simp [hi]

theorem graphSizeLoop_stop (split : Char) (s : Line) (hs : containsDashOne s = true) :
    ∀ (l rest : List Line) (nodes : Finset Line) (edges : ℕ),
      graphSizeLoop split (l ++ s :: rest) nodes edges =
        graphSizeLoop split (l ++ [s]) nodes edges
  | [], rest, nodes, edges => by
    have : ¬ (containsDashOne (pstrip s) = false ∧ pstrip s ≠ []) := by
      intro hcon
      rw [containsDashOne_pstrip s hs] at hcon
      exact absurd hcon.1 (by simp)
    simp [graphSizeLoop, this]
  | i :: l, rest, nodes, edges => by
    simp only [List.cons_append, graphSizeLoop]
    by_cases hi : containsDashOne (pstrip i) = false ∧ pstrip i ≠ []
    · rw [if_pos hi, if_pos hi]
      cases splitTwo split (pstrip i) with
      | none => rfl
      | some p => exact graphSizeLoop_stop split s hs l rest _ _
    · rw [if_neg hi, if_neg hi]

theorem pydiv_zero_ne {b : ℚ} (hb : b ≠ 0) : pydiv 0 b = some 0 := by
  simp [pydiv, hb]

theorem pydiv_of_ne {a b : ℚ} (hb : b ≠ 0) : pydiv a b = some (a / b) := by
  simp [pydiv, hb]

theorem pydiv_of_zero (a : ℚ) : pydiv a 0 = none := by
  simp [pydiv]

theorem LFR_error_stats_some {lines : List Line} {P : Finset ℤ} (T : Finset ℤ) (n : ℕ)
    (h : readPropCom lines ∅ = some P) :
    LFR_error_stats lines T n =
      if P.card = 0 then some (symmDiffF T P, 0, 0, 0, 0)
      else
        (pydiv ((T ∩ P).card : ℚ) (((T ∩ P).card : ℚ) + ((P \ T).card : ℚ))).bind (fun per =>
          (pydiv ((T ∩ P).card : ℚ) (((T ∩ P).card : ℚ) + ((T \ P).card : ℚ))).bind (fun rec =>
            (pydiv (2 * per * rec) (per + rec)).map (fun f1 =>
              (symmDiffF T P, per, rec, f1, P.card)))) := by
  unfold LFR_error_stats
  rw [h]

theorem stats_empty_proposed {lines : List Line} (T : Finset ℤ) (n : ℕ)
    (h : readPropCom lines ∅ = some ∅) :
    LFR_error_stats lines T n = some (T, 0, 0, 0, 0) := by
  rw [LFR_error_stats_some T n h]
  simp [symmDiffF]

theorem stats_disjoint {lines : List Line} {P : Finset ℤ} (T : Finset ℤ) (n : ℕ)
    (h : readPropCom lines ∅ = some P) (hP : P.Nonempty) (hT : T.Nonempty)
    (hd : T ∩ P = ∅) :
    LFR_error_stats lines T n = none := by
  rw [LFR_error_stats_some T n h, if_neg (Finset.card_pos.mpr hP).ne']
  have hdisj : Disjoint P T :=
    Finset.disjoint_iff_inter_eq_empty.mpr (by rw [Finset.inter_comm]; exact hd)
  have hPT : P \ T = P := Finset.sdiff_eq_self_iff_disjoint.mpr hdisj
  have hTP : T \ P = T := Finset.sdiff_eq_self_iff_disjoint.mpr hdisj.symm
  rw [hd, hPT, hTP]
  simp only [Finset.card_empty, Nat.cast_zero, zero_add]
  rw [pydiv_zero_ne (by exact_mod_cast (Finset.card_pos.mpr hP).ne'),
    pydiv_zero_ne (by exact_mod_cast (Finset.card_pos.mpr hT).ne')]
  simp [pydiv]

theorem stats_empty_true {lines : List Line} {P : Finset ℤ} (n : ℕ)
    (h : readPropCom lines ∅ = some P) (hP : P.Nonempty) :
    LFR_error_stats lines ∅ n = none := by
  rw [LFR_error_stats_some ∅ n h, if_neg (Finset.card_pos.mpr hP).ne']
  simp only [Finset.empty_inter, Finset.empty_sdiff, Finset.sdiff_empty,
    Finset.card_empty, Nat.cast_zero, zero_add, add_zero]
  rw [pydiv_zero_ne (by exact_mod_cast (Finset.card_pos.mpr hP).ne')]
  simp [pydiv]

theorem stats_perfect {lines : List Line} {P T : Finset ℤ} (n : ℕ)
    (h : readPropCom lines ∅ = some P) (hPT : P = T) (hP : P.Nonempty) :
    LFR_error_stats lines T n = some (∅, 1, 1, 1, P.card) := by
  subst hPT
  rw [LFR_error_stats_some P n h, if_neg (Finset.card_pos.mpr hP).ne']
  have hb : ((P.card : ℚ)) ≠ 0 := by exact_mod_cast (Finset.card_pos.mpr hP).ne'
  simp only [Finset.inter_self, Finset.sdiff_self, Finset.card_empty,
    Nat.cast_zero, add_zero]
  rw [pydiv_of_ne hb, div_self hb]
  norm_num [pydiv, symmDiffF]

theorem stats_overlapping {lines : List Line} {P : Finset ℤ} (T : Finset ℤ) (n : ℕ)
    (h : readPropCom lines ∅ = some P) (hne : (T ∩ P).Nonempty) :
    LFR_error_stats lines T n =
      some (symmDiffF T P,
        ((T ∩ P).card : ℚ) / (((T ∩ P).card : ℚ) + ((P \ T).card : ℚ)),
        ((T ∩ P).card : ℚ) / (((T ∩ P).card : ℚ) + ((T \ P).card : ℚ)),
        2 * (((T ∩ P).card : ℚ) / (((T ∩ P).card : ℚ) + ((P \ T).card : ℚ))) *
            (((T ∩ P).card : ℚ) / (((T ∩ P).card : ℚ) + ((T \ P).card : ℚ))) /
          ((((T ∩ P).card : ℚ) / (((T ∩ P).card : ℚ) + ((P \ T).card : ℚ))) +
            (((T ∩ P).card : ℚ) / (((T ∩ P).card : ℚ) + ((T \ P).card : ℚ)))),
        P.card) := by
  have hPne : P.Nonempty := by
    obtain ⟨x, hx⟩ := hne
    exact ⟨x, (Finset.mem_inter.mp hx).2⟩
  rw [LFR_error_stats_some T n h, if_neg (Finset.card_pos.mpr hPne).ne']
  have htp : (0 : ℚ) < ((T ∩ P).card : ℚ) := by
    exact_mod_cast Finset.card_pos.mpr hne
  have hd1 : ((T ∩ P).card : ℚ) + ((P \ T).card : ℚ) ≠ 0 :=
    (add_pos_of_pos_of_nonneg htp (Nat.cast_nonneg _)).ne'
  have hd2 : ((T ∩ P).card : ℚ) + ((T \ P).card : ℚ) ≠ 0 :=
    (add_pos_of_pos_of_nonneg htp (Nat.cast_nonneg _)).ne'
  rw [pydiv_of_ne hd1, pydiv_of_ne hd2]
  have hqp : (0 : ℚ) < ((T ∩ P).card : ℚ) / (((T ∩ P).card : ℚ) + ((P \ T).card : ℚ)) :=
    div_pos htp (add_pos_of_pos_of_nonneg htp (Nat.cast_nonneg _))
  have hqr : (0 : ℚ) < ((T ∩ P).card : ℚ) / (((T ∩ P).card : ℚ) + ((T \ P).card : ℚ)) :=
    div_pos htp (add_pos_of_pos_of_nonneg htp (Nat.cast_nonneg _))
  simp only [Option.some_bind]
  rw [pydiv_of_ne (add_pos hqp hqr).ne']
  simp

theorem stats_universe_independent (lines : List Line) (T : Finset ℤ) (n1 n2 : ℕ) :
    LFR_error_stats lines T n1 = LFR_error_stats lines T n2 := rfl

theorem tchLoop_eq_foldl :
    ∀ (lines : List Line) (st : List (ℤ × ℤ) × List (ℤ × Finset ℤ)),
      tchLoop lines st = (parseLines lines).map (fun ps => List.foldl gtStep st ps)
  | [], st => rfl
  | i :: rest, st => by
    simp only [tchLoop, parseLines]
    by_cases hi : i = []
    · rw [if_neg (fun hn => hn hi), if_neg (fun hn => hn hi)]
      rfl
    · rw [if_pos hi, if_pos hi]
      cases hp : parseGTLine i with
      | none => rfl
      | some p =>
        show tchLoop rest (gtStep st p) =
          ((parseLines rest).map (fun ps => p :: ps)).map
            (fun ps => List.foldl gtStep st ps)
        rw [tchLoop_eq_foldl rest (gtStep st p)]
        cases parseLines rest with
        | none => rfl
        | some ps => simp [List.foldl_cons]

theorem gt_foldl_fst :
    ∀ (ps : List (ℤ × ℤ)) (a : ℤ),
      dlookup a (List.foldl gtStep ([], []) ps).1 = dlookup a ps.reverse := by
  intro ps
  induction ps using List.reverseRecOn with
  | nil => intro a; rfl
  | append_singleton qs q ih =>
    intro a
    rw [List.foldl_append, List.reverse_append]
    simp only [List.foldl_cons, List.foldl_nil, List.reverse_cons, List.reverse_nil,
      List.nil_append, List.singleton_append]
    show dlookup a (dupdate q.1 q.2 (List.foldl gtStep ([], []) qs).1) =
      dlookup a (q :: qs.reverse)
    rw [dlookup_dupdate, ih a]
    simp only [dlookup]

theorem gt_foldl_snd :
    ∀ (ps : List (ℤ × ℤ)) (a c : ℤ),
      (∃ s, dlookup c (List.foldl gtStep ([], []) ps).2 = some s ∧ a ∈ s) ↔
        (a, c) ∈ ps := by
  intro ps
  induction ps using List.reverseRecOn with
  | nil =>
    intro a c
    constructor
    · rintro ⟨s, hs, _⟩
      simp [dlookup] at hs
    · intro h
      simp at h
  | append_singleton qs q ih =>
    intro a c
    rw [List.foldl_append]
    simp only [List.foldl_cons, List.foldl_nil, List.mem_append, List.mem_singleton]
    by_cases hc : q.2 = c
    · subst hc
      cases hlk : dlookup q.2 (List.foldl gtStep ([], []) qs).2 with
      | some s0 =>
        have hupd : (gtStep (List.foldl gtStep ([], []) qs) q).2 =
            dupdate q.2 (insert q.1 s0) (List.foldl gtStep ([], []) qs).2 := by
          simp [gtStep, hlk]
        rw [hupd]
        have hlook : ∀ s : Finset ℤ,
            dlookup q.2 (dupdate q.2 (insert q.1 s0)
              (List.foldl gtStep ([], []) qs).2) = some s ↔ s = insert q.1 s0 := by
          intro s
          rw [dlookup_dupdate, if_pos rfl]
          constructor
          · intro he
            injection he with he
            exact he.symm
          · intro he
            rw [he]
        have hmem : a ∈ s0 ↔ (a, q.2) ∈ qs := by
          rw [← ih a q.2]
          constructor
          · intro ha
            exact ⟨s0, hlk, ha⟩
          · rintro ⟨s, hs, ha⟩
            have he := hlk.symm.trans hs
            injection he with he
            rw [he]
            exact ha
        constructor
        · rintro ⟨s, hs, ha⟩
          rw [hlook s] at hs
          rw [hs] at ha
          rcases Finset.mem_insert.mp ha with he | hm
          · right
            rw [he]
          · left
            exact hmem.mp hm
        · intro h
          rcases h with hqs | he
          · exact ⟨insert q.1 s0, (hlook _).mpr rfl,
              Finset.mem_insert_of_mem (hmem.mpr hqs)⟩
          · refine ⟨insert q.1 s0, (hlook _).mpr rfl, ?_⟩
            have ha : a = q.1 := by
              have := congrArg Prod.fst he
              simpa using this
            rw [ha]
            exact Finset.mem_insert_self _ _
      | none =>
        have hupd : (gtStep (List.foldl gtStep ([], []) qs) q).2 =
            dupdate q.2 ({q.1} : Finset ℤ) (List.foldl gtStep ([], []) qs).2 := by
          simp [gtStep, hlk]
        rw [hupd]
        have hnotin : ¬ (a, q.2) ∈ qs := by
          rw [← ih a q.2]
          rintro ⟨s, hs, _⟩
          rw [hlk] at hs
          exact Option.noConfusion hs
        constructor
        · rintro ⟨s, hs, ha⟩
          rw [dlookup_dupdate, if_pos rfl] at hs
          injection hs with hs
          rw [← hs] at ha
          right
          have he : a = q.1 := Finset.mem_singleton.mp ha
          rw [he]
        · intro h
          rcases h with hqs | he
          · exact absurd hqs hnotin
          · refine ⟨{q.1}, by rw [dlookup_dupdate, if_pos rfl], ?_⟩
            have ha : a = q.1 := by
              have := congrArg Prod.fst he
              simpa using this
            rw [ha]
            exact Finset.mem_singleton_self _
    · have hlc : dlookup c (gtStep (List.foldl gtStep ([], []) qs) q).2 =
          dlookup c (List.foldl gtStep ([], []) qs).2 := by
        cases hlk : dlookup q.2 (List.foldl gtStep ([], []) qs).2 with
        | some s0 => simp [gtStep, hlk, dlookup_dupdate, hc]
        | none => simp [gtStep, hlk, dlookup_dupdate, hc]
      rw [hlc, ih a c]
      constructor
      · exact fun h => Or.inl h
      · intro h
        rcases h with hqs | he
        · exact hqs
        · exfalso
          apply hc
          have := congrArg Prod.snd he
          simpa using this.symm

theorem parseLines_mem :
    ∀ (lines : List Line) (ps : List (ℤ × ℤ)), parseLines lines = some ps →
      ∀ p ∈ ps, ∃ i, i ∈ lines ∧ parseGTLine i = some p
  | [], ps => by
    intro h p hp
    simp only [parseLines, Option.some_inj] at h
    rw [← h] at hp
    simp at hp
  | i :: rest, ps => by
    intro h p hp
    by_cases hi : i = []
    · simp only [parseLines] at h
      rw [if_neg (fun hn => hn hi)] at h
      injection h with h
      rw [← h] at hp
      simp at hp
    · simp only [parseLines] at h
      rw [if_pos hi] at h
      cases hg : parseGTLine i with
      | none =>
        rw [hg] at h
        exact Option.noConfusion h
      | some q =>
        rw [hg] at h
        cases hr : parseLines rest with
        | none =>
          rw [hr] at h
          exact Option.noConfusion h
        | some qs =>
          rw [hr] at h
          injection h with h
          rw [← h] at hp
          rcases List.mem_cons.mp hp with he | hm
          · exact ⟨i, List.mem_cons_self i rest, by rw [hg, he]⟩
          · rcases parseLines_mem rest qs hr p hm with ⟨j, hj1, hj2⟩
            exact ⟨j, List.mem_cons_of_mem i hj1, hj2⟩

theorem mem_nodesWithCom (n2c : List (ℤ × ℤ)) (c a : ℤ) :
    a ∈ nodesWithCom n2c c ↔ dlookup a n2c = some c := by
  unfold nodesWithCom
  rw [Finset.mem_filter]
  constructor
  · exact fun h => h.2
  · intro h
    refine ⟨?_, h⟩
    rw [List.mem_toFinset]
    exact List.mem_map.mpr ⟨(a, c), dlookup_mem a c n2c h, rfl⟩

theorem helper_success {lines : List Line} {n2c : List (ℤ × ℤ)}
    {c2n : List (ℤ × Finset ℤ)}
    (h : true_community_helper lines = some (n2c, c2n)) :
    ∃ ps, parseLines lines = some ps ∧
      n2c = (List.foldl gtStep ([], []) ps).1 ∧
      c2n = (List.foldl gtStep ([], []) ps).2 := by
  unfold true_community_helper at h
  rw [tchLoop_eq_foldl] at h
  cases hp : parseLines lines with
  | none =>
    rw [hp] at h
    exact Option.noConfusion h
  | some ps =>
    rw [hp] at h
    injection h with h
    exact ⟨ps, rfl, congrArg Prod.fst h.symm, congrArg Prod.snd h.symm⟩

theorem gt_seen_lookup {lines : List Line} {n2c : List (ℤ × ℤ)}
    {c2n : List (ℤ × Finset ℤ)}
    (h : true_community_helper lines = some (n2c, c2n)) {q c : ℤ}
    (hq : dlookup q n2c = some c) :
    ∃ s, dlookup c c2n = some s ∧ get_true_community n2c c2n q = some s := by
  obtain ⟨ps, hps, hn, hc⟩ := helper_success h
  subst hn
  subst hc
  have hq2 := hq
  rw [gt_foldl_fst] at hq2
  have hmem : (q, c) ∈ ps :=
    List.mem_reverse.mp (dlookup_mem q c ps.reverse hq2)
  obtain ⟨s, hs, hqs⟩ := (gt_foldl_snd ps q c).mpr hmem
  refine ⟨s, hs, ?_⟩
  unfold get_true_community
  rw [hq]
  exact hs


/-- C1: the specification states that ground-truth parsing stops at the first
    blank line, and that for the file with lines 1-tab-5, 2-tab-5, 3-tab-7
    followed by a blank line the index is built. The code instead tests the
    truthiness of the raw line (which still carries its newline), so the blank
    line is processed, its empty strip splits into a single field, and the
    two-variable unpacking fails: index construction returns no result. -/
theorem C1_blank_line_crash :
    true_community_helper (readlines (String.toList "1\t5\n2\t5\n3\t7\n\n")) = none := by
  decide

/-- C2 counterexample: a proposed set disjoint from a non-empty true set makes
    the call fail (return nothing) instead of returning the zero metrics the
    claim promises. -/
theorem C2_counterexample :
    LFR_error_stats (readlines (String.toList "4 5\n")) {1} 10 = none :=
  @stats_disjoint (readlines (String.toList "4 5\n")) {4, 5} {1} 10
    (optSetIs_sound (by decide)) ⟨4, by decide⟩ ⟨1, by decide⟩ (by decide)

/-- C2 (amended): for non-empty disjoint proposed and true sets, precision and
    recall both evaluate to zero, and the unguarded F1 computation then divides
    zero by zero, so LFR_error_stats fails (returns no result) rather than
    returning the triple of zeros. -/
theorem C2_disjoint_division_failure (lines : List Line) (P T : Finset ℤ) (n : ℕ)
    (h : readPropCom lines ∅ = some P) (hP : P.Nonempty) (hT : T.Nonempty)
    (hd : T ∩ P = ∅) :
    LFR_error_stats lines T n = none ∧
      pydiv ((T ∩ P).card : ℚ) (((T ∩ P).card : ℚ) + ((P \ T).card : ℚ)) = some 0 ∧
      pydiv ((T ∩ P).card : ℚ) (((T ∩ P).card : ℚ) + ((T \ P).card : ℚ)) = some 0 ∧
      pydiv (2 * 0 * 0) ((0 : ℚ) + 0) = none := by
  have hdisj : Disjoint P T :=
    Finset.disjoint_iff_inter_eq_empty.mpr (by rw [Finset.inter_comm]; exact hd)
  refine ⟨stats_disjoint T n h hP hT hd, ?_, ?_, by norm_num [pydiv]⟩
  · rw [hd, Finset.sdiff_eq_self_iff_disjoint.mpr hdisj]
    simp only [Finset.card_empty, Nat.cast_zero, zero_add]
    exact pydiv_zero_ne (by exact_mod_cast (Finset.card_pos.mpr hP).ne')
  · rw [hd, Finset.sdiff_eq_self_iff_disjoint.mpr hdisj.symm]
    simp only [Finset.card_empty, Nat.cast_zero, zero_add]
    exact pydiv_zero_ne (by exact_mod_cast (Finset.card_pos.mpr hT).ne')

/-- Witness for C2: a concrete disjoint pair reaching the failing F1 division. -/
theorem C2_witness :
    LFR_error_stats (readlines (String.toList "7 8\n")) {2} 10 = none :=
  (C2_disjoint_division_failure _ {7, 8} {2} 10 (optSetIs_sound (by decide))
    ⟨7, by decide⟩ ⟨2, by decide⟩ (by decide)).1

/-- C3: when reading the proposed-community file succeeds with an empty
    membership set, LFR_error_stats returns exactly the tuple of the true set
    (the symmetric difference) and four zeros, with no failure. -/
theorem C3_empty_proposed_zeroes (lines : List Line) (T : Finset ℤ) (n : ℕ)
    (h : readPropCom lines ∅ = some ∅) :
    LFR_error_stats lines T n = some (T, 0, 0, 0, 0) :=
  stats_empty_proposed T n h

/-- Witness for C3: a file whose first line is the sentinel yields the empty
    proposed set, and evaluation returns the true set with zero metrics. -/
theorem C3_witness :
    LFR_error_stats (readlines (String.toList "-1\n")) {5, 9} 10 =
      some ({5, 9}, 0, 0, 0, 0) :=
  C3_empty_proposed_zeroes _ {5, 9} 10 (optSetIs_sound (by decide))

/-- C4: with a non-empty proposed set and the empty true set the recall
    denominator (the cardinality of the true set) is zero, so the recall
    division fails and LFR_error_stats returns no result. -/
theorem C4_empty_true_division_failure (lines : List Line) (P : Finset ℤ) (n : ℕ)
    (h : readPropCom lines ∅ = some P) (hP : P.Nonempty) :
    LFR_error_stats lines ∅ n = none ∧
      pydiv (((∅ : Finset ℤ) ∩ P).card : ℚ)
        ((((∅ : Finset ℤ) ∩ P).card : ℚ) + (((∅ : Finset ℤ) \ P).card : ℚ)) = none := by
  refine ⟨stats_empty_true n h hP, ?_⟩
  simp [pydiv]

/-- Witness for C4: a concrete non-empty proposed set with empty true set. -/
theorem C4_witness :
    LFR_error_stats (readlines (String.toList "1 2\n")) ∅ 10 = none :=
  (C4_empty_true_division_failure _ {1, 2} 10 (optSetIs_sound (by decide))
    ⟨1, by decide⟩).1

/-- C5: for any index built by true_community_helper, querying a node absent
    from the node-to-community dictionary yields a lookup failure (not an
    empty set), and querying a seen node returns exactly the full node set
    stored for that node's community id. -/
theorem C5_lookup_behavior (lines : List Line) (n2c : List (ℤ × ℤ))
    (c2n : List (ℤ × Finset ℤ))
    (h : true_community_helper lines = some (n2c, c2n)) :
    (∀ q, dlookup q n2c = none → get_true_community n2c c2n q = none) ∧
    (∀ q c, dlookup q n2c = some c →
      ∃ s, dlookup c c2n = some s ∧ get_true_community n2c c2n q = some s) := by
  constructor
  · intro q hq
    unfold get_true_community
    rw [hq]
    rfl
  · intro q c hq
    exact gt_seen_lookup h hq

/-- Witness for C5: on the index of a one-line ground-truth file, the unseen
    node 2 fails and the seen node 1 returns the node set of community 5. -/
theorem C5_witness :
    get_true_community [(1, 5)] [(5, {1})] 2 = none ∧
    (∃ s, dlookup 5 [((5 : ℤ), ({1} : Finset ℤ))] = some s ∧
      get_true_community [(1, 5)] [(5, {1})] 1 = some s) := by
  have h := C5_lookup_behavior (readlines (String.toList "1\t5\n")) [(1, 5)]
    [(5, {1})] (optGTIs_sound (by decide))
  exact ⟨h.1 2 (by decide), h.2 1 5 (by decide)⟩

/-- C6 counterexample: the file with lines 1-tab-5 and 1-tab-7 is accepted,
    yet node 1 remains in the node set of community 5 while its
    node-to-community entry is 7, and community 5 keeps cardinality 1 though
    no node maps to it; the claimed invariant fails. -/
theorem C6_counterexample :
    true_community_helper (readlines (String.toList "1\t5\n1\t7\n")) =
      some ([(1, 7)], [(5, {1}), (7, {1})]) ∧
    dlookup 5 [((5 : ℤ), ({1} : Finset ℤ)), (7, {1})] = some {1} ∧
    (1 : ℤ) ∈ ({1} : Finset ℤ) ∧
    dlookup 1 [((1 : ℤ), (7 : ℤ))] ≠ some 5 ∧
    ({1} : Finset ℤ).card = 1 ∧
    (nodesWithCom [((1 : ℤ), (7 : ℤ))] 5).card = 0 :=
  ⟨optGTIs_sound (by decide), optSetIs_sound (by decide), by decide, by decide,
    by decide, by decide⟩

/-- C6 (amended): for every accepted ground-truth file in which no node is
    assigned two different community ids, a node belongs to the stored set of a
    community exactly when its node-to-community entry is that community, and
    each stored set's cardinality equals the number of nodes mapping to it. -/
theorem C6_index_invariant (lines : List Line) (n2c : List (ℤ × ℤ))
    (c2n : List (ℤ × Finset ℤ))
    (h : true_community_helper lines = some (n2c, c2n))
    (hfun : ∀ i ∈ lines, ∀ j ∈ lines,
      gtCompatible (parseGTLine i) (parseGTLine j) = true) :
    (∀ a c, (∃ s, dlookup c c2n = some s ∧ a ∈ s) ↔ dlookup a n2c = some c) ∧
    (∀ c s, dlookup c c2n = some s → s.card = (nodesWithCom n2c c).card) := by
  obtain ⟨ps, hps, hn, hc⟩ := helper_success h
  subst hn
  subst hc
  have pfun : ∀ a b b', (a, b) ∈ ps → (a, b') ∈ ps → b = b' := by
    intro a b b' h1 h2
    obtain ⟨i, hi, hgi⟩ := parseLines_mem lines ps hps _ h1
    obtain ⟨j, hj, hgj⟩ := parseLines_mem lines ps hps _ h2
    have hcomp := hfun i hi j hj
    rw [hgi, hgj] at hcomp
    have himp : (a, b).1 = (a, b').1 → (a, b).2 = (a, b').2 :=
      of_decide_eq_true hcomp
    exact himp rfl
  have hiff : ∀ a c,
      dlookup a (List.foldl gtStep ([], []) ps).1 = some c ↔ (a, c) ∈ ps := by
    intro a c
    rw [gt_foldl_fst]
    constructor
    · intro hl
      exact List.mem_reverse.mp (dlookup_mem a c ps.reverse hl)
    · intro hm
      obtain ⟨w, hw⟩ := mem_dlookup a c ps.reverse (List.mem_reverse.mpr hm)
      have hmw : (a, w) ∈ ps :=
        List.mem_reverse.mp (dlookup_mem a w ps.reverse hw)
      rw [hw, pfun a w c hmw hm]
  constructor
  · intro a c
    rw [gt_foldl_snd, hiff a c]
  · intro c s hs
    have hset : s = nodesWithCom (List.foldl gtStep ([], []) ps).1 c := by
      apply Finset.ext
      intro a
      rw [mem_nodesWithCom, hiff a c, ← gt_foldl_snd ps a c]
      constructor
      · intro ha
        exact ⟨s, hs, ha⟩
      · rintro ⟨s2, hs2, ha⟩
        have he := hs.symm.trans hs2
        injection he with he
        rw [he]
        exact ha
    rw [hset]

/-- Witness for C6: the three-line ground-truth file of the specification
    satisfies the no-reassignment hypothesis, and both invariant parts are
    realized on its index. -/
theorem C6_witness :
    ((∃ s, dlookup 5 [((5 : ℤ), ({1, 2} : Finset ℤ)), (7, {3})] = some s ∧
        (1 : ℤ) ∈ s) ↔
      dlookup 1 [((1 : ℤ), (5 : ℤ)), (2, 5), (3, 7)] = some 5) ∧
    ({1, 2} : Finset ℤ).card =
      (nodesWithCom [((1 : ℤ), (5 : ℤ)), (2, 5), (3, 7)] 5).card := by
  have h := C6_index_invariant (readlines (String.toList "1\t5\n2\t5\n3\t7\n"))
    [(1, 5), (2, 5), (3, 7)] [(5, {1, 2}), (7, {3})]
    (optGTIs_sound (by decide)) (by decide)
  exact ⟨h.1 1 5, h.2 5 {1, 2} (optSetIs_sound (by decide))⟩

/-- C7 counterexample: for the empty proposed set equal to the empty true set
    the engine takes the degenerate branch and returns zero metrics, not the
    perfect scores the claim asserts for every file with equal sets. -/
theorem C7_counterexample :
    LFR_error_stats (readlines (String.toList "-1\n")) ∅ 10 =
      some (∅, 0, 0, 0, 0) ∧ (0 : ℚ) ≠ 1 :=
  ⟨stats_empty_proposed ∅ 10 (optSetIs_sound (by decide)), by norm_num⟩

/-- C7 (amended): when the proposed set equals the true set and is non-empty,
    LFR_error_stats returns an empty symmetric difference and precision,
    recall and F1 all equal to one. -/
theorem C7_perfect_match (lines : List Line) (P T : Finset ℤ) (n : ℕ)
    (h : readPropCom lines ∅ = some P) (hPT : P = T) (hP : P.Nonempty) :
    LFR_error_stats lines T n = some (∅, 1, 1, 1, P.card) :=
  stats_perfect n h hPT hP

/-- Witness for C7: a file proposing exactly the true community of two nodes. -/
theorem C7_witness :
    LFR_error_stats (readlines (String.toList "1 2\n")) {1, 2} 10 =
      some (∅, 1, 1, 1, 2) := by
  have h := C7_perfect_match (readlines (String.toList "1 2\n")) {1, 2} {1, 2} 10
    (optSetIs_sound (by decide)) rfl ⟨1, by decide⟩
  have hc : ({1, 2} : Finset ℤ).card = 2 := by decide
  rw [hc] at h
  exact h

/-- C8 counterexample: a non-empty proposed set disjoint from the true set
    reaches the zero-by-zero F1 division, so the call returns nothing instead
    of the precision and recall values the claim asserts it returns. -/
theorem C8_counterexample :
    LFR_error_stats (readlines (String.toList "9 9\n")) {5} 10 = none :=
  @stats_disjoint (readlines (String.toList "9 9\n")) {9} {5} 10
    (optSetIs_sound (by decide)) ⟨9, by decide⟩ ⟨5, by decide⟩ (by decide)

/-- C8 (amended): whenever the true and proposed sets overlap, the call
    returns, with precision and recall given by the confusion-set formulas,
    F1 the harmonic combination of the two, the symmetric difference, and the
    proposed-set size; the universe size does not appear in the result. -/
theorem C8_overlap_formulas (lines : List Line) (P T : Finset ℤ) (n : ℕ)
    (h : readPropCom lines ∅ = some P) (hne : (T ∩ P).Nonempty) :
    LFR_error_stats lines T n =
      some (symmDiffF T P,
        ((T ∩ P).card : ℚ) / (((T ∩ P).card : ℚ) + ((P \ T).card : ℚ)),
        ((T ∩ P).card : ℚ) / (((T ∩ P).card : ℚ) + ((T \ P).card : ℚ)),
        2 * (((T ∩ P).card : ℚ) / (((T ∩ P).card : ℚ) + ((P \ T).card : ℚ))) *
            (((T ∩ P).card : ℚ) / (((T ∩ P).card : ℚ) + ((T \ P).card : ℚ))) /
          ((((T ∩ P).card : ℚ) / (((T ∩ P).card : ℚ) + ((P \ T).card : ℚ))) +
            (((T ∩ P).card : ℚ) / (((T ∩ P).card : ℚ) + ((T \ P).card : ℚ)))),
        P.card) :=
  stats_overlapping T n h hne

/-- Witness for C8: the concrete scenario of the specification, with true set
    one-two-three, proposed set two-three-four and universe ten, returning
    precision, recall and F1 all two thirds. -/
theorem C8_witness :
    LFR_error_stats (readlines (String.toList "2 3\n3 4\n-1\n")) {1, 2, 3} 10 =
      some ({1, 4}, 2/3, 2/3, 2/3, 3) := by
  have h := C8_overlap_formulas (readlines (String.toList "2 3\n3 4\n-1\n"))
    {2, 3, 4} {1, 2, 3} 10 (optSetIs_sound (by decide)) ⟨2, by decide⟩
  have h1 : (({1, 2, 3} : Finset ℤ) ∩ {2, 3, 4}).card = 2 := by decide
  have h2 : (({2, 3, 4} : Finset ℤ) \ {1, 2, 3}).card = 1 := by decide
  have h3 : (({1, 2, 3} : Finset ℤ) \ {2, 3, 4}).card = 1 := by decide
  have h4 : symmDiffF {1, 2, 3} {2, 3, 4} = ({1, 4} : Finset ℤ) := by decide
  have h5 : ({2, 3, 4} : Finset ℤ).card = 3 := by decide
  rw [h1, h2, h3, h4, h5] at h
  rw [h]
  norm_num

/-- C9: both read modes stop at a line containing the sentinel marker and
    never read the lines after it, and on the concrete three-line file the
    membership mode yields the node set one-two-three while the size mode
    reports three nodes and two edges. -/
theorem C9_sentinel_stops :
    (∀ (l rest : List Line) (s : Line) (acc : Finset ℤ),
        containsDashOne s = true →
        readPropCom (l ++ s :: rest) acc = readPropCom (l ++ [s]) acc) ∧
    (∀ (split : Char) (l rest : List Line) (s : Line) (nodes : Finset Line)
        (edges : ℕ), containsDashOne s = true →
        graphSizeLoop split (l ++ s :: rest) nodes edges =
          graphSizeLoop split (l ++ [s]) nodes edges) ∧
    readPropCom (readlines (String.toList "1 2\n1 3\n-1\n")) ∅ = some {1, 2, 3} ∧
    graph_size_from_file (readlines (String.toList "1 2\n1 3\n-1\n")) ' ' =
      some (3, 2) := by
  refine ⟨?_, ?_, optSetIs_sound (by decide), by decide⟩
  · intro l rest s acc hs
    exact readPropCom_stop s hs l rest acc
  · intro split l rest s nodes edges hs
    exact graphSizeLoop_stop split s hs l rest nodes edges

/-- Witness for C9: dropping the line after a sentinel changes neither read. -/
theorem C9_witness :
    readPropCom [['-', '1'], ['9', ' ', '9']] ∅ = readPropCom [['-', '1']] ∅ ∧
    graphSizeLoop ' ' [['-', '1'], ['9', ' ', '9']] ∅ 0 =
      graphSizeLoop ' ' [['-', '1']] ∅ 0 := by
  have h := C9_sentinel_stops
  exact ⟨h.1 [] [['9', ' ', '9']] ['-', '1'] ∅ (by decide),
    h.2.1 ' ' [] [['9', ' ', '9']] ['-', '1'] ∅ 0 (by decide)⟩

/-- C10: the five components returned by LFR_error_stats are identical under
    any two universe sizes; the true-negative set derived from the universe is
    computed but feeds no returned component. -/
theorem C10_universe_size_independent (lines : List Line) (T : Finset ℤ)
    (n1 n2 : ℕ) :
    LFR_error_stats lines T n1 = LFR_error_stats lines T n2 :=
  stats_universe_independent lines T n1 n2
